import Mathlib

/-!
# Interactive Bézier rope: the numeric core of `script.js`

A shallow embedding of the math and physics sections of `src/script.js`.
JavaScript numbers are read as elements of a linearly ordered field `K`
(the rationals when a definition is evaluated, the reals in the theorems), so
rounding, overflow and `NaN` are outside the model.  The two library
functions whose results are irrational, `Math.hypot` and `Math.pow`, enter as
the parameters `sqrt` and `pow`; the theorems instantiate them with the real
square root and the real power.
-/

namespace BezierRope

/-! ## Math helpers (script.js 55-61) -/

/-- A 2D vector `{x, y}`, as built by `vec(x, y)`. -/
structure Vec (K : Type) where
  x : K
  y : K
deriving DecidableEq

variable {K : Type}

/-- Source: `function vec(x, y){ return {x, y}; }`. -/
def vec (x y : K) : Vec K := ⟨x, y⟩

/-- Source: `function add(a,b){ return vec(a.x+b.x, a.y+b.y); }`. -/
def add [Add K] (a b : Vec K) : Vec K := vec (a.x + b.x) (a.y + b.y)

/-- Source: `function sub(a,b){ return vec(a.x-b.x, a.y-b.y); }`. -/
def sub [Sub K] (a b : Vec K) : Vec K := vec (a.x - b.x) (a.y - b.y)

/-- Source: `function mul(a,s){ return vec(a.x*s, a.y*s); }`. -/
def mul [Mul K] (a : Vec K) (s : K) : Vec K := vec (a.x * s) (a.y * s)

/-- Source: `function len(a){ return Math.hypot(a.x, a.y); }`, with
`Math.hypot(x, y)` read as `sqrt (x*x + y*y)`. -/
def len [Add K] [Mul K] (sqrt : K → K) (a : Vec K) : K := sqrt (a.x * a.x + a.y * a.y)

/-- Source: `function lerp(a,b,t){ return vec(a.x+(b.x-a.x)*t, a.y+(b.y-a.y)*t); }`. -/
def lerp [Add K] [Sub K] [Mul K] (a b : Vec K) (t : K) : Vec K :=
  vec (a.x + (b.x - a.x) * t) (a.y + (b.y - a.y) * t)

/-! ## Bézier functions (script.js 64-102) -/

section Bezier

variable [LinearOrderedField K]

/-- Source: `bezierPoint(P0, P1, P2, P3, t)`, lines 64-72. -/
def bezierPoint (P0 P1 P2 P3 : Vec K) (t : K) : Vec K :=
  let u := 1 - t
  let tt := t * t
  let uu := u * u
  let uuu := uu * u
  let ttt := tt * t
  vec (uuu * P0.x + 3 * uu * t * P1.x + 3 * u * tt * P2.x + ttt * P3.x)
      (uuu * P0.y + 3 * uu * t * P1.y + 3 * u * tt * P2.y + ttt * P3.y)

/-- Source: `bezierTangent(P0, P1, P2, P3, t)`, lines 73-79. -/
def bezierTangent (P0 P1 P2 P3 : Vec K) (t : K) : Vec K :=
  let u := 1 - t
  vec (3 * u * u * (P1.x - P0.x) + 6 * u * t * (P2.x - P1.x) + 3 * t * t * (P3.x - P2.x))
      (3 * u * u * (P1.y - P0.y) + 6 * u * t * (P2.y - P1.y) + 3 * t * t * (P3.y - P2.y))

/-- The local `dx` of `curvature`, line 83. -/
def curvatureDx (P0 P1 P2 P3 : Vec K) (t : K) : K :=
  let u := 1 - t
  3 * u * u * (P1.x - P0.x) + 6 * u * t * (P2.x - P1.x) + 3 * t * t * (P3.x - P2.x)

/-- The local `dy` of `curvature`, line 84. -/
def curvatureDy (P0 P1 P2 P3 : Vec K) (t : K) : K :=
  let u := 1 - t
  3 * u * u * (P1.y - P0.y) + 6 * u * t * (P2.y - P1.y) + 3 * t * t * (P3.y - P2.y)

/-- The local `num` of `curvature`, lines 85-87. -/
def curvatureNum (P0 P1 P2 P3 : Vec K) (t : K) : K :=
  let u := 1 - t
  let dx := curvatureDx P0 P1 P2 P3 t
  let dy := curvatureDy P0 P1 P2 P3 t
  let ddx := 6 * u * (P2.x - 2 * P1.x + P0.x) + 6 * t * (P3.x - 2 * P2.x + P1.x)
  let ddy := 6 * u * (P2.y - 2 * P1.y + P0.y) + 6 * t * (P3.y - 2 * P2.y + P1.y)
  |dx * ddy - dy * ddx|

/-- The local `den` of `curvature`, line 88:
`Math.pow(dx*dx + dy*dy, 1.5) + 1e-6`. -/
def curvatureDen (pow : K → K → K) (P0 P1 P2 P3 : Vec K) (t : K) : K :=
  let dx := curvatureDx P0 P1 P2 P3 t
  let dy := curvatureDy P0 P1 P2 P3 t
  pow (dx * dx + dy * dy) 1.5 + 1e-6

/-- Source: `curvature(P0,P1,P2,P3,t)`, lines 80-90: `return num/den`. -/
def curvature (pow : K → K → K) (P0 P1 P2 P3 : Vec K) (t : K) : K :=
  curvatureNum P0 P1 P2 P3 t / curvatureDen pow P0 P1 P2 P3 t

/-- The record `{L01,L12,L23,Q0,Q1,B}` returned by `casteljau`. -/
structure Casteljau (K : Type) where
  L01 : Vec K
  L12 : Vec K
  L23 : Vec K
  Q0 : Vec K
  Q1 : Vec K
  B : Vec K

/-- Source: `casteljau(P0,P1,P2,P3,t)`, lines 93-101. -/
def casteljau (P0 P1 P2 P3 : Vec K) (t : K) : Casteljau K :=
  let L01 := lerp P0 P1 t
  let L12 := lerp P1 P2 t
  let L23 := lerp P2 P3 t
  let Q0 := lerp L01 L12 t
  let Q1 := lerp L12 L23 t
  let B := lerp Q0 Q1 t
  { L01 := L01, L12 := L12, L23 := L23, Q0 := Q0, Q1 := Q1, B := B }

end Bezier

/-! ## Dynamic points P1/P2 with spring-damper (script.js 110-118, 193-208) -/

/-- The object `{pos, vel, target}` built by `makeDynamicPoint`. -/
structure DynamicPoint (K : Type) where
  pos : Vec K
  vel : Vec K
  target : Vec K
deriving DecidableEq

/-- Source: `makeDynamicPoint(initial)`, lines 110-116. -/
def makeDynamicPoint [Zero K] (initial : Vec K) : DynamicPoint K :=
  { pos := vec initial.x initial.y, vel := vec 0 0, target := vec initial.x initial.y }

/-- Source: `updateDynamicPoint(dp, dt)`, lines 193-208.  The slider values
`k`, `d`, `m` that the function reads are arguments; the mutated `dp` is
returned. -/
def updateDynamicPoint [LinearOrderedField K] (sqrt : K → K) (k d m : K)
    (dp : DynamicPoint K) (dt : K) : DynamicPoint K :=
  let x := dp.pos
  let v := dp.vel
  let target := dp.target
  let a := add (mul (sub target x) (k / m)) (mul v (-d / m))
  let vel := add v (mul a dt)
  let pos := add x (mul vel dt)
  if len sqrt (sub pos target) < 0.6 ∧ len sqrt vel < 0.08 then
    { pos := vec target.x target.y, vel := vec 0 0, target := target }
  else
    { pos := pos, vel := vel, target := target }

/-- The step as the specification words it: `a = (k/m)(target - pos) - (d/m) vel`,
`v1 = vel + a*dt`, `p1 = pos + v1*dt`, and the result is `(p1, v1)` unless
`|p1 - target| < 0.6` and `|v1| < 0.08`, when it is `(target, 0)`; `target` is
kept.  `norm` is the Euclidean norm. -/
def stepSpec [LinearOrderedField K] (norm : Vec K → K) (k d m : K)
    (dp : DynamicPoint K) (dt : K) : DynamicPoint K :=
  let ax := (k / m) * (dp.target.x - dp.pos.x) - (d / m) * dp.vel.x
  let ay := (k / m) * (dp.target.y - dp.pos.y) - (d / m) * dp.vel.y
  let v1 : Vec K := ⟨dp.vel.x + ax * dt, dp.vel.y + ay * dt⟩
  let p1 : Vec K := ⟨dp.pos.x + v1.x * dt, dp.pos.y + v1.y * dt⟩
  if norm ⟨p1.x - dp.target.x, p1.y - dp.target.y⟩ < 6 / 10 ∧ norm v1 < 8 / 100 then
    { pos := dp.target, vel := ⟨0, 0⟩, target := dp.target }
  else
    { pos := p1, vel := v1, target := dp.target }

/-! ## Rope: mass-spring chain (script.js 121-126, 211-254) -/

/-- A rope node `{pos, vel, mass}`. -/
structure RopeNode (K : Type) where
  pos : Vec K
  vel : Vec K
  mass : K
deriving DecidableEq

/-- The body of the interior loop of `updateRope` (lines 223-252) at index `i`,
mutating `ropePoints[i]` in place.  `P1`, `P2` are `P1dyn.pos`, `P2dyn.pos`.
The locals `restLeft`, `restRight` are never read and are left out.  The last
case is not reached for `1 ≤ i < ropePoints.length - 1`. -/
def ropeBody [LinearOrderedField K] (sqrt : K → K) (k d : K) (P0 P1 P2 P3 : Vec K) (dt : K)
    (ropePoints : List (RopeNode K)) (i : Nat) : List (RopeNode K) :=
  match ropePoints[i]?, ropePoints[i - 1]?, ropePoints[i + 1]? with
  | some rp, some left, some right =>
    let mass := rp.mass
    let t := (i : K) / ((ropePoints.length : K) - 1)
    let guide := bezierPoint P0 P1 P2 P3 t
    let Fguide := mul (sub guide rp.pos) (k * 0.5)
    let Fl := mul (sub left.pos rp.pos) (k * 0.25)
    let Fr := mul (sub right.pos rp.pos) (k * 0.25)
    let Fd := mul rp.vel (-d)
    let F := add (add (add Fguide Fl) Fr) Fd
    let a := mul F (1 / (mass + 1e-6))
    let vel := add rp.vel (mul a dt)
    let pos := add rp.pos (mul vel dt)
    let vel := if len sqrt vel < 0.06 then vec 0 0 else vel
    ropePoints.set i { pos := pos, vel := vel, mass := mass }
  | _, _, _ => ropePoints

/-- The loop `for (let i=1; i<ropePoints.length-1; i++)` of `updateRope`, entered
at index `i`. -/
def ropeLoop [LinearOrderedField K] (sqrt : K → K) (k d : K) (P0 P1 P2 P3 : Vec K) (dt : K)
    (ropePoints : List (RopeNode K)) (i : Nat) : List (RopeNode K) :=
  if i < ropePoints.length - 1 then
    ropeLoop sqrt k d P0 P1 P2 P3 dt (ropeBody sqrt k d P0 P1 P2 P3 dt ropePoints i) (i + 1)
  else ropePoints
termination_by ropePoints.length - i
decreasing_by
  have hlen : (ropeBody sqrt k d P0 P1 P2 P3 dt ropePoints i).length = ropePoints.length := by
    unfold ropeBody
    split <;> simp
  omega

/-- Source: `updateRope(dt)`, lines 211-254.  The globals it reads (`k`, `d`,
`P0`, `P1dyn.pos`, `P2dyn.pos`, `P3`) are arguments and the mutated
`ropePoints` is returned; `none` is the `TypeError` of `ropePoints[0].pos = ...`
on an empty array. -/
def updateRope [LinearOrderedField K] (sqrt : K → K) (k d : K) (P0 P1 P2 P3 : Vec K)
    (ropePoints : List (RopeNode K)) (dt : K) : Option (List (RopeNode K)) :=
  match ropePoints[0]? with
  | none => none
  | some first =>
    let pts := ropePoints.set 0 { first with pos := vec P0.x P0.y, vel := vec 0 0 }
    match pts[pts.length - 1]? with
    | none => none
    | some last =>
      let pts := pts.set (pts.length - 1) { last with pos := vec P3.x P3.y, vel := vec 0 0 }
      some (ropeLoop sqrt k d P0 P1 P2 P3 dt pts 1)

/-! ## Frame controller: the physics phase of `render` (script.js 330-341) -/

/-- The module-level state the physics phase reads and writes. -/
structure World (K : Type) where
  P0 : Vec K
  P3 : Vec K
  P1dyn : DynamicPoint K
  P2dyn : DynamicPoint K
  ropePoints : List (RopeNode K)
  k : K
  d : K
  m : K
  paused : Bool

/-- One call made by the body of the substep loop, with its time step. -/
inductive Call (K : Type) where
  | updateP1 (step : K)
  | updateP2 (step : K)
  | updateRope (step : K)
deriving DecidableEq

/-- Source: `const fixedDt = 1/120`. -/
def fixedDt [LinearOrderedField K] : K := 1 / 120

/-- Source: `let steps = Math.ceil(dt / fixedDt); steps = Math.max(1, Math.min(5, steps));`. -/
def stepCount [LinearOrderedField K] [FloorRing K] (dt : K) : Int :=
  let steps := ⌈dt / fixedDt⌉
  max 1 (min 5 steps)

/-- The statement `updateDynamicPoint(P1dyn, step)` of line 337 on the module
state `w`, recorded in the log of calls. -/
def callUpdateP1 [LinearOrderedField K] (sqrt : K → K) (step : K) :
    World K × List (Call K) → World K × List (Call K)
  | (w, log) =>
    ({ w with P1dyn := updateDynamicPoint sqrt w.k w.d w.m w.P1dyn step },
      log ++ [Call.updateP1 step])

/-- The statement `updateDynamicPoint(P2dyn, step)` of line 338 on the module
state `w`, recorded in the log of calls. -/
def callUpdateP2 [LinearOrderedField K] (sqrt : K → K) (step : K) :
    World K × List (Call K) → World K × List (Call K)
  | (w, log) =>
    ({ w with P2dyn := updateDynamicPoint sqrt w.k w.d w.m w.P2dyn step },
      log ++ [Call.updateP2 step])

/-- The statement `updateRope(step)` of line 339 on the module state `w`,
recorded in the log of calls; it reads the globals `P0`, `P1dyn.pos`,
`P2dyn.pos`, `P3` as they are when it runs. -/
def callUpdateRope [LinearOrderedField K] (sqrt : K → K) (step : K) :
    World K × List (Call K) → Option (World K × List (Call K))
  | (w, log) =>
    match updateRope sqrt w.k w.d w.P0 w.P1dyn.pos w.P2dyn.pos w.P3 w.ropePoints step with
    | none => none
    | some pts => some ({ w with ropePoints := pts }, log ++ [Call.updateRope step])

/-- The body of the substep loop, lines 336-339: the three statements in
sequence on the state and the log of calls made so far. -/
def substep [LinearOrderedField K] (sqrt : K → K) (dt : K) (steps : Int)
    (st : World K × List (Call K)) : Option (World K × List (Call K)) :=
  let step := dt / (steps : K)
  let st := callUpdateP1 sqrt step st
  let st := callUpdateP2 sqrt step st
  callUpdateRope sqrt step st

/-- The loop `for (let s=0; s<steps; s++)` of `render`, entered at counter `s`. -/
def substepLoop [LinearOrderedField K] (sqrt : K → K) (dt : K) (steps : Int) (s : Int)
    (st : World K × List (Call K)) : Option (World K × List (Call K)) :=
  if s < steps then
    match substep sqrt dt steps st with
    | none => none
    | some st1 => substepLoop sqrt dt steps (s + 1) st1
  else some st
termination_by (steps - s).toNat
decreasing_by omega

/-- The physics phase of `render(dt)`, lines 330-341: the new state and the
calls made, in order. -/
def renderPhysics [LinearOrderedField K] [FloorRing K] (sqrt : K → K) (w : World K) (dt : K) :
    Option (World K × List (Call K)) :=
  if !w.paused then
    substepLoop sqrt dt (stepCount dt) 0 (w, [])
  else some (w, [])

/-- One substep as the specification words it: with integration step `h`, P1
is advanced once, P2 is advanced once, and then the rope is advanced once
against the curve of the already advanced P1 and P2; the anchors and the
parameters are kept. -/
def substepSpec [LinearOrderedField K] (sqrt : K → K) (h : K) (w : World K) :
    Option (World K) :=
  (updateRope sqrt w.k w.d w.P0 (updateDynamicPoint sqrt w.k w.d w.m w.P1dyn h).pos
      (updateDynamicPoint sqrt w.k w.d w.m w.P2dyn h).pos w.P3 w.ropePoints h).map
    fun pts =>
      { P0 := w.P0, P3 := w.P3,
        P1dyn := updateDynamicPoint sqrt w.k w.d w.m w.P1dyn h,
        P2dyn := updateDynamicPoint sqrt w.k w.d w.m w.P2dyn h,
        ropePoints := pts, k := w.k, d := w.d, m := w.m, paused := w.paused }

/-- The specification's frame: `n` substeps of size `h`, one after the other. -/
def substepsSpec [LinearOrderedField K] (sqrt : K → K) (h : K) : Nat → World K → Option (World K)
  | 0, w => some w
  | n + 1, w => (substepSpec sqrt h w).bind (substepsSpec sqrt h n)

/-! ## Tangent drawing loop of `render` (script.js 343-348, 358-366) -/

/-- The curve samples `pts` of `render`, lines 344-348. -/
def samplePts [LinearOrderedField K] (P0 P1 P2 P3 : Vec K) (samples : Nat) : List (Vec K) :=
  (List.range samples).map fun (i : Nat) => bezierPoint P0 P1 P2 P3 ((i : K) / ((samples : K) - 1))

/-- The loop `for (let i=0; i<pts.length; i+=Math.floor(samples/16))`, entered at
index `i` with the indices visited so far; `fuel` bounds the number of
iterations and `none` means the bound was reached before the loop ended. -/
def tangentLoop (samples ptsLength : Nat) : Nat → Nat → List Nat → Option (List Nat)
  | 0, _, _ => none
  | fuel + 1, i, visited =>
    if i < ptsLength then tangentLoop samples ptsLength fuel (i + samples / 16) (visited ++ [i])
    else some visited

/-! ## Proof devices for the convergence of the spring-damper step

With `e = pos - target` and `w = dt * vel` (per coordinate), `β = d*dt/m` and
`γ = k*dt²/m`, one step without the resting clamp is the linear map
`w' = (1-β) w - γ e`, `e' = e + w'`.  `lyapV` is a quadratic form that this map
decreases by `lyapD * (e² + w²)`. -/

/-- Coefficient of `e²` in `lyapV`. -/
def lyapA [LinearOrderedField K] (β γ : K) : K :=
  γ * (2 - β + 2 * γ) * (2 - β) + β * β * (4 - 2 * β - γ)

/-- Half the coefficient of `e*w` in `lyapV`. -/
def lyapB [LinearOrderedField K] (β γ : K) : K :=
  (1 - β) * (β * (4 - 2 * β - γ) - γ * (2 - β + 2 * γ))

/-- Coefficient of `w²` in `lyapV`. -/
def lyapC [LinearOrderedField K] (β γ : K) : K :=
  2 * (1 - β) * (1 - β) * (2 - β + 2 * γ) + 2 * γ * β * (4 - 2 * β - γ)

/-- The decrease rate of `lyapV` along one step. -/
def lyapD [LinearOrderedField K] (β γ : K) : K := 2 * γ * β * (4 - 2 * β - γ)

/-- The quadratic form `A e² + 2 B e w + C w²`. -/
def lyapV [LinearOrderedField K] (β γ e w : K) : K :=
  lyapA β γ * (e * e) + 2 * lyapB β γ * (e * w) + lyapC β γ * (w * w)

/-- The sum of `lyapV` over the two coordinates of a dynamic point. -/
def energy [LinearOrderedField K] (k d m dt : K) (dp : DynamicPoint K) : K :=
  lyapV (d * dt / m) (k * dt * dt / m) (dp.pos.x - dp.target.x) (dt * dp.vel.x) +
  lyapV (d * dt / m) (k * dt * dt / m) (dp.pos.y - dp.target.y) (dt * dp.vel.y)

/-- The squared size `|pos - target|² + dt² |vel|²` of a dynamic point. -/
def sqSize [LinearOrderedField K] (dt : K) (dp : DynamicPoint K) : K :=
  (dp.pos.x - dp.target.x) * (dp.pos.x - dp.target.x) + (dt * dp.vel.x) * (dt * dp.vel.x) +
  ((dp.pos.y - dp.target.y) * (dp.pos.y - dp.target.y) + (dt * dp.vel.y) * (dt * dp.vel.y))

/-- Lines 197-202 of `updateDynamicPoint`: the step before the resting clamp. -/
def eulerStep [LinearOrderedField K] (k d m : K) (dp : DynamicPoint K) (dt : K) :
    DynamicPoint K :=
  let x := dp.pos
  let v := dp.vel
  let target := dp.target
  let a := add (mul (sub target x) (k / m)) (mul v (-d / m))
  let vel := add v (mul a dt)
  let pos := add x (mul vel dt)
  { pos := pos, vel := vel, target := target }

/-! ## Theorems: Bézier evaluator -/

/-- C1. De Casteljau equivalence: for all control points and every `t`,
`bezierPoint` equals the point `B` returned by `casteljau`, in both
coordinates; at `P0=(0,0)`, `P1=P2=(50,50)`, `P3=(100,0)`, `t=0.5` both give
`(50, 37.5)`. -/
theorem bezierPoint_eq_casteljau_B :
    (∀ (P0 P1 P2 P3 : Vec ℝ) (t : ℝ),
      (bezierPoint P0 P1 P2 P3 t).x = (casteljau P0 P1 P2 P3 t).B.x ∧
      (bezierPoint P0 P1 P2 P3 t).y = (casteljau P0 P1 P2 P3 t).B.y) ∧
    bezierPoint (vec 0 0) (vec 50 50) (vec 50 50) (vec 100 0) (0.5 : ℝ) = vec 50 37.5 ∧
    (casteljau (vec 0 0) (vec 50 50) (vec 50 50) (vec 100 0) (0.5 : ℝ)).B = vec 50 37.5 := by
  refine ⟨fun P0 P1 P2 P3 t => ⟨?_, ?_⟩, ?_, ?_⟩
  · simp only [bezierPoint, casteljau, lerp, vec]; ring
  · simp only [bezierPoint, casteljau, lerp, vec]; ring
  · simp only [bezierPoint, vec]; norm_num
  · simp only [casteljau, lerp, vec]; norm_num

/-- C2. Boundary interpolation: `bezierPoint` at `t = 0` is `P0` and at
`t = 1` is `P3`, for any control points. -/
theorem bezierPoint_boundary (P0 P1 P2 P3 : Vec ℝ) :
    bezierPoint P0 P1 P2 P3 0 = P0 ∧ bezierPoint P0 P1 P2 P3 1 = P3 := by
  constructor
  · cases P0; simp [bezierPoint, vec]
  · cases P3; simp [bezierPoint, vec]

/-- C9. `bezierTangent` is the first derivative of `bezierPoint` in `t`: each
coordinate of `bezierTangent P0 P1 P2 P3 t` is the derivative at `t` of the same
coordinate of `s ↦ bezierPoint P0 P1 P2 P3 s`. -/
theorem bezierTangent_hasDerivAt (P0 P1 P2 P3 : Vec ℝ) (t : ℝ) :
    HasDerivAt (fun s => (bezierPoint P0 P1 P2 P3 s).x) (bezierTangent P0 P1 P2 P3 t).x t ∧
    HasDerivAt (fun s => (bezierPoint P0 P1 P2 P3 s).y) (bezierTangent P0 P1 P2 P3 t).y t := by
  have key : ∀ a b c d : ℝ,
      HasDerivAt
        (fun s : ℝ => (1 - s) * (1 - s) * (1 - s) * a + 3 * ((1 - s) * (1 - s)) * s * b
          + 3 * (1 - s) * (s * s) * c + s * s * s * d)
        (3 * (1 - t) * (1 - t) * (b - a) + 6 * (1 - t) * t * (c - b) + 3 * t * t * (d - c))
        t := by
    intro a b c d
    have hu : HasDerivAt (fun s : ℝ => 1 - s) (-1) t := by
      simpa using (hasDerivAt_id t).const_sub 1
    have hs : HasDerivAt (fun s : ℝ => s) 1 t := hasDerivAt_id t
    have h := ((((hu.mul hu).mul hu).mul_const a).add
      ((((hu.mul hu).const_mul 3).mul hs).mul_const b)).add
      (((hu.const_mul 3).mul (hs.mul hs)).mul_const c) |>.add (((hs.mul hs).mul hs).mul_const d)
    refine h.congr_deriv ?_
    ring
  exact ⟨key P0.x P1.x P2.x P3.x, key P0.y P1.y P2.y P3.y⟩

/-- C3. For all control points and every real `t` the denominator
`(dx^2+dy^2)^1.5 + 1e-6` of `curvature` is strictly positive and `curvature` is
non-negative; when the first derivative is the zero vector the denominator is
`1e-6` and the curvature is `0`. -/
theorem curvature_nonneg_defined (P0 P1 P2 P3 : Vec ℝ) (t : ℝ) :
    0 < curvatureDen (fun s e => s ^ e) P0 P1 P2 P3 t ∧
    0 ≤ curvature (fun s e => s ^ e) P0 P1 P2 P3 t ∧
    (bezierTangent P0 P1 P2 P3 t = vec 0 0 →
      curvatureDen (fun s e => s ^ e) P0 P1 P2 P3 t = 1e-6 ∧
      curvature (fun s e => s ^ e) P0 P1 P2 P3 t = 0) := by
  have hs : 0 ≤ curvatureDx P0 P1 P2 P3 t * curvatureDx P0 P1 P2 P3 t
      + curvatureDy P0 P1 P2 P3 t * curvatureDy P0 P1 P2 P3 t :=
    add_nonneg (mul_self_nonneg _) (mul_self_nonneg _)
  have hden : 0 < curvatureDen (fun s e => s ^ e) P0 P1 P2 P3 t := by
    have := Real.rpow_nonneg hs 1.5
    simp only [curvatureDen]
    have h6 : (0 : ℝ) < 1e-6 := by norm_num
    linarith
  refine ⟨hden, ?_, ?_⟩
  · exact div_nonneg (abs_nonneg _) hden.le
  · intro h0
    have hx : curvatureDx P0 P1 P2 P3 t = 0 := by
      have := congrArg Vec.x h0
      simpa [bezierTangent, curvatureDx, vec] using this
    have hy : curvatureDy P0 P1 P2 P3 t = 0 := by
      have := congrArg Vec.y h0
      simpa [bezierTangent, curvatureDy, vec] using this
    constructor
    · simp only [curvatureDen, hx, hy]
      norm_num
    · simp [curvature, curvatureNum, hx, hy]

/-! ## Theorems: spring-damper integrator -/

section Integrator

variable [LinearOrderedField K]

/-- A point at rest on its target is a fixed point of one step. -/
theorem updateDynamicPoint_rest (sqrt : K → K) (k d m dt : K) (dp : DynamicPoint K)
    (hpos : dp.pos = dp.target) (hvel : dp.vel = vec 0 0) :
    updateDynamicPoint sqrt k d m dp dt = dp := by
  obtain ⟨⟨px, py⟩, ⟨vx, vy⟩, ⟨tx, ty⟩⟩ := dp
  simp only [vec, Vec.mk.injEq] at hpos hvel
  obtain ⟨rfl, rfl⟩ := hpos
  obtain ⟨rfl, rfl⟩ := hvel
  simp only [updateDynamicPoint]
  split_ifs <;> simp [add, mul, sub, vec]

/-- C4. Equilibrium: a DynamicPoint with `pos = target` and `vel = (0,0)` is
left unchanged (`pos`, `vel` and `target`) by any number `n` of calls of
`updateDynamicPoint`, for every `k`, `d`, every `m > 0` and every step `dt`. -/
theorem updateDynamicPoint_equilibrium (sqrt : K → K) (k d m dt : K) (dp : DynamicPoint K)
    (hpos : dp.pos = dp.target) (hvel : dp.vel = vec 0 0) (hm : 0 < m) (n : ℕ) :
    (fun s => updateDynamicPoint sqrt k d m s dt)^[n] dp = dp := by
  have _ := hm
  exact Function.iterate_fixed (updateDynamicPoint_rest sqrt k d m dt dp hpos hvel) n

end Integrator

/-- Witness for C4: the point resting at `(3, 4)`, with `k = 50`, `d = 5`,
`m = 1`, `dt = 1/120`, after seven steps. -/
theorem updateDynamicPoint_equilibrium_witness :
    (0 : ℝ) < 1 ∧
    (fun s => updateDynamicPoint Real.sqrt 50 5 1 s (1 / 120))^[7]
      (makeDynamicPoint (vec (3 : ℝ) 4)) = makeDynamicPoint (vec (3 : ℝ) 4) :=
  ⟨one_pos, updateDynamicPoint_equilibrium Real.sqrt 50 5 1 (1 / 120)
    (makeDynamicPoint (vec 3 4)) rfl rfl one_pos 7⟩

/-- C7. One call of `updateDynamicPoint` with `m > 0` is the semi-implicit Euler
step of the specification: `a = (k/m)(target - pos) - (d/m) vel`,
`v1 = vel + a*dt`, `p1 = pos + v1*dt`, result `(p1, v1)` unless
`|p1 - target| < 0.6` and `|v1| < 0.08`, when it is `(target, (0,0))`; `target`
is never changed. -/
theorem updateDynamicPoint_eq_stepSpec (k d m dt : ℝ) (dp : DynamicPoint ℝ) (hm : 0 < m) :
    updateDynamicPoint Real.sqrt k d m dp dt =
      stepSpec (fun v => Real.sqrt (v.x ^ 2 + v.y ^ 2)) k d m dp dt ∧
    (updateDynamicPoint Real.sqrt k d m dp dt).target = dp.target := by
  have _ := hm
  obtain ⟨⟨px, py⟩, ⟨vx, vy⟩, ⟨tx, ty⟩⟩ := dp
  have e1 : ∀ a b : ℝ, a * a + b * b = a ^ 2 + b ^ 2 := fun a b => by ring
  have e6 : (0.6 : ℝ) = 6 / 10 := by norm_num
  have e8 : (0.08 : ℝ) = 8 / 100 := by norm_num
  have hx : px + (vx + ((tx - px) * (k / m) + vx * (-d / m)) * dt) * dt
      = px + (vx + (k / m * (tx - px) - d / m * vx) * dt) * dt := by ring
  have hy : py + (vy + ((ty - py) * (k / m) + vy * (-d / m)) * dt) * dt
      = py + (vy + (k / m * (ty - py) - d / m * vy) * dt) * dt := by ring
  have hvx : vx + ((tx - px) * (k / m) + vx * (-d / m)) * dt
      = vx + (k / m * (tx - px) - d / m * vx) * dt := by ring
  have hvy : vy + ((ty - py) * (k / m) + vy * (-d / m)) * dt
      = vy + (k / m * (ty - py) - d / m * vy) * dt := by ring
  constructor
  · simp only [updateDynamicPoint, stepSpec, add, mul, sub, vec, len, e1, e6, e8, hx, hy,
      hvx, hvy]
  · simp only [updateDynamicPoint]
    split_ifs <;> rfl

/-- Witness for C7: `pos=(0,0)`, `vel=(0,0)`, `target=(10,0)`, `k=50`, `d=5`,
`m=1`, `dt=1/120` gives `a=(500,0)`, `vel=(500/120,0)`, `pos=(500/14400,0)`, with
no snap. -/
theorem updateDynamicPoint_eq_stepSpec_witness :
    (0 : ℝ) < 1 ∧
    add (mul (sub (vec 10 0) (vec 0 0)) (50 / 1)) (mul (vec 0 0) (-5 / 1)) = (vec 500 0 : Vec ℝ) ∧
    updateDynamicPoint Real.sqrt 50 5 1 ⟨⟨0, 0⟩, ⟨0, 0⟩, ⟨10, 0⟩⟩ (1 / 120) =
      ⟨⟨500 / 14400, 0⟩, ⟨500 / 120, 0⟩, ⟨10, 0⟩⟩ := by
  refine ⟨one_pos, by norm_num [add, mul, sub, vec], ?_⟩
  rw [(updateDynamicPoint_eq_stepSpec 50 5 1 (1 / 120) ⟨⟨0, 0⟩, ⟨0, 0⟩, ⟨10, 0⟩⟩ one_pos).1]
  have hfar : ¬ Real.sqrt ((0 + (0 + (50 / 1 * (10 - 0) - 5 / 1 * 0) * (1 / 120)) * (1 / 120)
      - 10) ^ 2 + (0 + (0 + (50 / 1 * (0 - 0) - 5 / 1 * 0) * (1 / 120)) * (1 / 120) - 0) ^ 2)
      < (6 / 10 : ℝ) := by
    rw [not_lt]
    apply Real.le_sqrt_of_sq_le
    norm_num
  simp only [stepSpec]
  rw [if_neg (fun h => hfar h.1)]
  norm_num

/-! ## Theorems: rope simulator -/

section Rope

variable [LinearOrderedField K]

/-- An index below the length holds an element. -/
theorem exists_getElem?_of_lt {α : Type} (l : List α) (i : Nat) (h : i < l.length) :
    ∃ a, l[i]? = some a :=
  ⟨l[i], List.getElem?_eq_getElem h⟩

/-- The loop body keeps the number of nodes. -/
theorem ropeBody_length (sqrt : K → K) (k d : K) (P0 P1 P2 P3 : Vec K) (dt : K)
    (pts : List (RopeNode K)) (i : Nat) :
    (ropeBody sqrt k d P0 P1 P2 P3 dt pts i).length = pts.length := by
  unfold ropeBody
  split <;> simp

/-- The loop body at index `i` writes no other index. -/
theorem ropeBody_getElem?_ne (sqrt : K → K) (k d : K) (P0 P1 P2 P3 : Vec K) (dt : K)
    (pts : List (RopeNode K)) (i j : Nat) (hij : i ≠ j) :
    (ropeBody sqrt k d P0 P1 P2 P3 dt pts i)[j]? = pts[j]? := by
  unfold ropeBody
  split
  · simp [List.getElem?_set_ne hij]
  · rfl

/-- The interior loop entered at index `i` keeps the number of nodes and writes
neither an index below `i` nor the last index. -/
theorem ropeLoop_frame (sqrt : K → K) (k d : K) (P0 P1 P2 P3 : Vec K) (dt : K) :
    ∀ (n : Nat) (pts : List (RopeNode K)) (i : Nat), pts.length - i = n →
      (ropeLoop sqrt k d P0 P1 P2 P3 dt pts i).length = pts.length ∧
      (∀ j, j < i → (ropeLoop sqrt k d P0 P1 P2 P3 dt pts i)[j]? = pts[j]?) ∧
      (ropeLoop sqrt k d P0 P1 P2 P3 dt pts i)[pts.length - 1]? = pts[pts.length - 1]? := by
  intro n
  induction n using Nat.strong_induction_on with
  | _ n ih =>
    intro pts i hn
    rw [ropeLoop]
    split_ifs with hi
    · have hlen := ropeBody_length sqrt k d P0 P1 P2 P3 dt pts i
      obtain ⟨h1, h2, h3⟩ := ih (pts.length - (i + 1)) (by omega)
        (ropeBody sqrt k d P0 P1 P2 P3 dt pts i) (i + 1) (by rw [hlen])
      refine ⟨by rw [h1, hlen], ?_, ?_⟩
      · intro j hj
        rw [h2 j (by omega)]
        exact ropeBody_getElem?_ne sqrt k d P0 P1 P2 P3 dt pts i j (by omega)
      · rw [hlen] at h3
        rw [h3]
        exact ropeBody_getElem?_ne sqrt k d P0 P1 P2 P3 dt pts i _ (by omega)
    · exact ⟨rfl, fun _ _ => rfl, rfl⟩

/-- C6. For every rope of length `N ≥ 2`, whatever its nodes and whatever `k`,
`d`, `dt`, `updateRope` returns a rope of the same length whose node `0` has
`pos = P0` and node `N-1` has `pos = P3`, both with `vel = (0,0)`; and the
interior loop changes neither endpoint of any rope it is run on. -/
theorem updateRope_endpoints (sqrt : K → K) (k d : K) (P0 P1 P2 P3 : Vec K) (dt : K)
    (ropePoints : List (RopeNode K)) (hN : 2 ≤ ropePoints.length) :
    (∃ pts first last, updateRope sqrt k d P0 P1 P2 P3 ropePoints dt = some pts ∧
      pts.length = ropePoints.length ∧
      pts[0]? = some first ∧ first.pos = P0 ∧ first.vel = vec 0 0 ∧
      pts[ropePoints.length - 1]? = some last ∧ last.pos = P3 ∧ last.vel = vec 0 0) ∧
    (∀ qs : List (RopeNode K),
      (ropeLoop sqrt k d P0 P1 P2 P3 dt qs 1)[0]? = qs[0]? ∧
      (ropeLoop sqrt k d P0 P1 P2 P3 dt qs 1)[qs.length - 1]? = qs[qs.length - 1]?) := by
  constructor
  · obtain ⟨n0, hn0⟩ := exists_getElem?_of_lt ropePoints 0 (by omega)
    obtain ⟨pts1, hpts1⟩ : ∃ p, p = ropePoints.set 0
        { n0 with pos := vec P0.x P0.y, vel := vec 0 0 } := ⟨_, rfl⟩
    have hlen1 : pts1.length = ropePoints.length := by rw [hpts1]; simp
    obtain ⟨nl, hnl⟩ := exists_getElem?_of_lt pts1 (pts1.length - 1) (by omega)
    obtain ⟨pts2, hpts2⟩ : ∃ p, p = pts1.set (pts1.length - 1)
        { nl with pos := vec P3.x P3.y, vel := vec 0 0 } := ⟨_, rfl⟩
    have hlen2 : pts2.length = ropePoints.length := by rw [hpts2]; simp [hlen1]
    obtain ⟨h1, h2, h3⟩ := ropeLoop_frame sqrt k d P0 P1 P2 P3 dt _ pts2 1 rfl
    refine ⟨ropeLoop sqrt k d P0 P1 P2 P3 dt pts2 1,
      { n0 with pos := vec P0.x P0.y, vel := vec 0 0 },
      { nl with pos := vec P3.x P3.y, vel := vec 0 0 }, ?_, ?_, ?_, ?_, ?_, ?_, ?_, ?_⟩
    · simp only [updateRope, hn0, ← hpts1, hnl, ← hpts2]
    · rw [h1, hlen2]
    · rw [h2 0 (by omega), hpts2, List.getElem?_set_ne (by omega), hpts1]
      exact List.getElem?_set_self (by omega)
    · cases P0; rfl
    · rfl
    · rw [hlen2] at h3
      rw [h3, hpts2, hlen1]
      exact List.getElem?_set_self (by omega)
    · cases P3; rfl
    · rfl
  · intro qs
    obtain ⟨_, h2, h3⟩ := ropeLoop_frame sqrt k d P0 P1 P2 P3 dt _ qs 1 rfl
    exact ⟨h2 0 (by omega), h3⟩

end Rope

/-- Witness for C6: a three-node rope with anchors `P0 = (0,0)`, `P3 = (40,0)`. -/
theorem updateRope_endpoints_witness :
    2 ≤ [(⟨vec 1 2, vec 3 4, 1⟩ : RopeNode ℝ), ⟨vec 5 6, vec 7 8, 1⟩,
      ⟨vec 9 10, vec 11 12, 1⟩].length ∧
    ∃ pts first last,
      updateRope Real.sqrt 50 5 (vec 0 0) (vec 10 20) (vec 30 (-20)) (vec 40 0)
        [(⟨vec 1 2, vec 3 4, 1⟩ : RopeNode ℝ), ⟨vec 5 6, vec 7 8, 1⟩,
          ⟨vec 9 10, vec 11 12, 1⟩] (1 / 120) = some pts ∧
      pts[0]? = some first ∧ first.pos = vec 0 0 ∧ first.vel = vec 0 0 ∧
      pts[2]? = some last ∧ last.pos = vec 40 0 ∧ last.vel = vec 0 0 := by
  refine ⟨by decide, ?_⟩
  obtain ⟨⟨pts, first, last, h, _, h0, h1, h2, h3, h4, h5⟩, _⟩ :=
    updateRope_endpoints Real.sqrt (50 : ℝ) 5 (vec 0 0) (vec 10 20) (vec 30 (-20)) (vec 40 0)
      (1 / 120) [⟨vec 1 2, vec 3 4, 1⟩, ⟨vec 5 6, vec 7 8, 1⟩, ⟨vec 9 10, vec 11 12, 1⟩]
      (by decide)
  exact ⟨pts, first, last, h, h0, h1, h2, h3, h4, h5⟩

/-! ## Theorems: frame controller -/

section Frame

variable [LinearOrderedField K]

/-- On a non-empty rope `updateRope` returns a rope of the same length. -/
theorem updateRope_some (sqrt : K → K) (k d : K) (P0 P1 P2 P3 : Vec K) (dt : K)
    (ropePoints : List (RopeNode K)) (hN : 0 < ropePoints.length) :
    ∃ pts, updateRope sqrt k d P0 P1 P2 P3 ropePoints dt = some pts ∧
      pts.length = ropePoints.length := by
  obtain ⟨n0, hn0⟩ := exists_getElem?_of_lt ropePoints 0 hN
  obtain ⟨pts1, hpts1⟩ : ∃ p, p = ropePoints.set 0
      { n0 with pos := vec P0.x P0.y, vel := vec 0 0 } := ⟨_, rfl⟩
  have hlen1 : pts1.length = ropePoints.length := by rw [hpts1]; simp
  obtain ⟨nl, hnl⟩ := exists_getElem?_of_lt pts1 (pts1.length - 1) (by omega)
  obtain ⟨pts2, hpts2⟩ : ∃ p, p = pts1.set (pts1.length - 1)
      { nl with pos := vec P3.x P3.y, vel := vec 0 0 } := ⟨_, rfl⟩
  have hlen2 : pts2.length = ropePoints.length := by rw [hpts2]; simp [hlen1]
  refine ⟨ropeLoop sqrt k d P0 P1 P2 P3 dt pts2 1, ?_, ?_⟩
  · simp only [updateRope, hn0, ← hpts1, hnl, ← hpts2]
  · rw [(ropeLoop_frame sqrt k d P0 P1 P2 P3 dt _ pts2 1 rfl).1, hlen2]

/-- The loop body is one substep of the specification, with its three calls
logged in the order P1, P2, rope. -/
theorem substep_eq_substepSpec (sqrt : K → K) (dt : K) (steps : Int)
    (st : World K × List (Call K)) :
    substep sqrt dt steps st =
      (substepSpec sqrt (dt / (steps : K)) st.1).map fun w =>
        (w, st.2 ++ [Call.updateP1 (dt / (steps : K)), Call.updateP2 (dt / (steps : K)),
          Call.updateRope (dt / (steps : K))]) := by
  simp only [substep, callUpdateP1, callUpdateP2, callUpdateRope, substepSpec]
  cases updateRope sqrt st.1.k st.1.d st.1.P0
    (updateDynamicPoint sqrt st.1.k st.1.d st.1.m st.1.P1dyn (dt / (steps : K))).pos
    (updateDynamicPoint sqrt st.1.k st.1.d st.1.m st.1.P2dyn (dt / (steps : K))).pos
    st.1.P3 st.1.ropePoints (dt / (steps : K)) with
  | none => rfl
  | some pts => simp

/-- On a non-empty rope one substep of the specification produces a state: P1
and P2 advanced once, the rope of the same length, the rest kept. -/
theorem substepSpec_some (sqrt : K → K) (h : K) (w : World K) (hne : 0 < w.ropePoints.length) :
    ∃ w1, substepSpec sqrt h w = some w1 ∧
      w1.P1dyn = updateDynamicPoint sqrt w.k w.d w.m w.P1dyn h ∧
      w1.P2dyn = updateDynamicPoint sqrt w.k w.d w.m w.P2dyn h ∧
      w1.ropePoints.length = w.ropePoints.length ∧
      w1.k = w.k ∧ w1.d = w.d ∧ w1.m = w.m := by
  obtain ⟨pts, hpts, hlen⟩ := updateRope_some sqrt w.k w.d w.P0
    (updateDynamicPoint sqrt w.k w.d w.m w.P1dyn h).pos
    (updateDynamicPoint sqrt w.k w.d w.m w.P2dyn h).pos w.P3 h w.ropePoints hne
  refine ⟨⟨w.P0, w.P3, updateDynamicPoint sqrt w.k w.d w.m w.P1dyn h,
      updateDynamicPoint sqrt w.k w.d w.m w.P2dyn h, pts, w.k, w.d, w.m, w.paused⟩,
    ?_, rfl, rfl, hlen, rfl, rfl, rfl⟩
  simp only [substepSpec, hpts, Option.map_some']

/-- The substep loop entered at counter `s` with a non-empty rope runs its body
`steps - s` times: its final state is that of as many substeps of the
specification, it logs that many triples of calls, and P1 and P2 are advanced
that many times. -/
theorem substepLoop_runs (sqrt : K → K) (dt : K) (steps : Int) :
    ∀ (n : Nat) (s : Int) (st : World K × List (Call K)), (steps - s).toNat = n →
      0 < st.1.ropePoints.length →
      ∃ w, substepLoop sqrt dt steps s st = some (w, st.2 ++ (List.replicate n
          [Call.updateP1 (dt / (steps : K)), Call.updateP2 (dt / (steps : K)),
            Call.updateRope (dt / (steps : K))]).flatten) ∧
        substepsSpec sqrt (dt / (steps : K)) n st.1 = some w ∧
        w.P1dyn = (fun p => updateDynamicPoint sqrt st.1.k st.1.d st.1.m p (dt / (steps : K)))^[n]
          st.1.P1dyn ∧
        w.P2dyn = (fun p => updateDynamicPoint sqrt st.1.k st.1.d st.1.m p (dt / (steps : K)))^[n]
          st.1.P2dyn ∧
        w.ropePoints.length = st.1.ropePoints.length := by
  intro n
  induction n with
  | zero =>
    intro s st hn _
    rw [substepLoop, if_neg (by omega)]
    exact ⟨st.1, by simp, rfl, rfl, rfl, rfl⟩
  | succ n ih =>
    intro s st hn hne
    obtain ⟨w1, hw1, hP1, hP2, hlen, hk, hd, hm⟩ :=
      substepSpec_some sqrt (dt / (steps : K)) st.1 hne
    obtain ⟨w, hw, hspec, h1, h2, h3⟩ := ih (s + 1)
      (w1, st.2 ++ [Call.updateP1 (dt / (steps : K)), Call.updateP2 (dt / (steps : K)),
        Call.updateRope (dt / (steps : K))])
      (by omega) (by simpa [hlen] using hne)
    rw [substepLoop, if_pos (by omega), substep_eq_substepSpec, hw1]
    simp only [Option.map_some']
    refine ⟨w, ?_, ?_, ?_, ?_, ?_⟩
    · rw [hw]
      simp [List.replicate_succ, List.append_assoc]
    · simp only [substepsSpec, hw1, Option.some_bind]
      exact hspec
    · rw [h1, Function.iterate_succ_apply]
      simp only [hk, hd, hm, hP1]
    · rw [h2, Function.iterate_succ_apply]
      simp only [hk, hd, hm, hP2]
    · rw [h3, hlen]

/-- On a three-node rope `updateRope` anchors the two ends and runs the loop
body once, at the middle node. -/
theorem updateRope_three (sqrt : K → K) (k d : K) (P0 P1 P2 P3 : Vec K)
    (dt : K) (n0 n1 n2 : RopeNode K) :
    updateRope sqrt k d P0 P1 P2 P3 [n0, n1, n2] dt =
      some (ropeBody sqrt k d P0 P1 P2 P3 dt
        [{ n0 with pos := vec P0.x P0.y, vel := vec 0 0 }, n1,
          { n2 with pos := vec P3.x P3.y, vel := vec 0 0 }] 1) := by
  have hlen : (ropeBody sqrt k d P0 P1 P2 P3 dt
        [{ n0 with pos := vec P0.x P0.y, vel := vec 0 0 }, n1,
          { n2 with pos := vec P3.x P3.y, vel := vec 0 0 }] 1).length = 3 := by
    rw [ropeBody_length]; rfl
  have h1 : updateRope sqrt k d P0 P1 P2 P3 [n0, n1, n2] dt =
      some (ropeLoop sqrt k d P0 P1 P2 P3 dt
        [{ n0 with pos := vec P0.x P0.y, vel := vec 0 0 }, n1,
          { n2 with pos := vec P3.x P3.y, vel := vec 0 0 }] 1) := rfl
  rw [h1, ropeLoop, if_pos (by simp), ropeLoop, if_neg (by rw [hlen]; simp)]

/-- The loop body at the middle node of a three-node rope, written out. -/
theorem ropeBody_middle (sqrt : K → K) (k d : K) (P0 P1 P2 P3 : Vec K)
    (dt : K) (n0 n1 n2 : RopeNode K) :
    ropeBody sqrt k d P0 P1 P2 P3 dt [n0, n1, n2] 1 =
      [n0,
        { pos := add n1.pos (mul (add n1.vel (mul (mul (add (add (add
            (mul (sub (bezierPoint P0 P1 P2 P3 (((1 : Nat) : K) / (((3 : Nat) : K) - 1))) n1.pos)
              (k * 0.5))
            (mul (sub n0.pos n1.pos) (k * 0.25))) (mul (sub n2.pos n1.pos) (k * 0.25)))
            (mul n1.vel (-d))) (1 / (n1.mass + 1e-6))) dt)) dt),
          vel := if len sqrt (add n1.vel (mul (mul (add (add (add
            (mul (sub (bezierPoint P0 P1 P2 P3 (((1 : Nat) : K) / (((3 : Nat) : K) - 1))) n1.pos)
              (k * 0.5))
            (mul (sub n0.pos n1.pos) (k * 0.25))) (mul (sub n2.pos n1.pos) (k * 0.25)))
            (mul n1.vel (-d))) (1 / (n1.mass + 1e-6))) dt)) < 0.06 then vec 0 0
            else add n1.vel (mul (mul (add (add (add
            (mul (sub (bezierPoint P0 P1 P2 P3 (((1 : Nat) : K) / (((3 : Nat) : K) - 1))) n1.pos)
              (k * 0.5))
            (mul (sub n0.pos n1.pos) (k * 0.25))) (mul (sub n2.pos n1.pos) (k * 0.25)))
            (mul n1.vel (-d))) (1 / (n1.mass + 1e-6))) dt),
          mass := n1.mass },
        n2] := rfl

variable [FloorRing K]

/-- C8. For every frame delta `dt`, an unpaused `render` on a non-empty rope
runs exactly `steps = max(1, min(5, ceil(dt / (1/120))))` substeps, with
`1 ≤ steps ≤ 5`, each of size `dt/steps` (the sizes sum to `dt`): the state it
leaves is the one reached by `steps` substeps of the specification, each of
which advances P1, then P2, then the rope (against the advanced P1 and P2)
once, and the calls it makes are, `steps` times over, the P1 update, the P2
update and the rope update; for `dt = 0.2` that is 5 substeps of size `0.04`. -/
theorem renderPhysics_substeps (sqrt : K → K) (w : World K) (dt : K)
    (hp : w.paused = false) (hne : w.ropePoints ≠ []) :
    stepCount dt = max 1 (min 5 ⌈dt / (1 / 120)⌉) ∧
    1 ≤ stepCount dt ∧ stepCount dt ≤ 5 ∧
    ((stepCount dt).toNat : K) * (dt / (stepCount dt : K)) = dt ∧
    (∃ w1, renderPhysics sqrt w dt = some (w1, (List.replicate (stepCount dt).toNat
        [Call.updateP1 (dt / (stepCount dt : K)), Call.updateP2 (dt / (stepCount dt : K)),
          Call.updateRope (dt / (stepCount dt : K))]).flatten) ∧
      substepsSpec sqrt (dt / (stepCount dt : K)) (stepCount dt).toNat w = some w1 ∧
      w1.P1dyn = (fun p => updateDynamicPoint sqrt w.k w.d w.m p (dt / (stepCount dt : K)))^[
        (stepCount dt).toNat] w.P1dyn ∧
      w1.P2dyn = (fun p => updateDynamicPoint sqrt w.k w.d w.m p (dt / (stepCount dt : K)))^[
        (stepCount dt).toNat] w.P2dyn ∧
      w1.ropePoints.length = w.ropePoints.length) ∧
    stepCount (0.2 : K) = 5 ∧ (0.2 : K) / ((5 : Int) : K) = 0.04 := by
  have h1 : 1 ≤ stepCount dt := le_max_left _ _
  have h5 : stepCount dt ≤ 5 := max_le (by norm_num) (min_le_left _ _)
  refine ⟨rfl, h1, h5, ?_, ?_, ?_, ?_⟩
  · have hcast : ((stepCount dt).toNat : K) = ((stepCount dt : Int) : K) := by
      rw [← Int.cast_natCast, Int.toNat_of_nonneg (by omega)]
    have hpos : (0 : K) < ((stepCount dt : Int) : K) := by
      exact_mod_cast (by omega : (0 : Int) < stepCount dt)
    rw [hcast]
    field_simp
  · obtain ⟨w1, hw, hspec, hP1, hP2, hlen⟩ := substepLoop_runs sqrt dt (stepCount dt)
      (stepCount dt).toNat 0 (w, []) (by simp) (List.length_pos.mpr hne)
    refine ⟨w1, ?_, hspec, hP1, hP2, hlen⟩
    simp only [renderPhysics, hp]
    simpa using hw
  · have h24 : (0.2 : K) / fixedDt = ((24 : Int) : K) := by
      simp only [fixedDt]; norm_num
    simp only [stepCount, h24, Int.ceil_intCast]
    decide
  · norm_num

/-- One step of P1 in the example frame: from `(10,20)` at rest towards
`(20,20)`. -/
theorem frameExample_P1 :
    updateDynamicPoint Real.sqrt 50 5 1
      (⟨vec 10 20, vec 0 0, vec 20 20⟩ : DynamicPoint ℝ) (1 / 120) =
      ⟨vec (1445 / 144) 20, vec (25 / 6) 0, vec 20 20⟩ := by
  simp only [updateDynamicPoint, add, mul, sub, vec, len]
  split_ifs with h
  · exfalso
    have h1 := h.1
    rw [Real.sqrt_lt' (by norm_num)] at h1
    norm_num at h1
  · norm_num

/-- One step of P2 in the example frame: from `(30,-20)` at rest towards
`(30,-10)`. -/
theorem frameExample_P2 :
    updateDynamicPoint Real.sqrt 50 5 1
      (⟨vec 30 (-20), vec 0 0, vec 30 (-10)⟩ : DynamicPoint ℝ) (1 / 120) =
      ⟨vec 30 (-2875 / 144), vec 0 (25 / 6), vec 30 (-10)⟩ := by
  simp only [updateDynamicPoint, add, mul, sub, vec, len]
  split_ifs with h
  · exfalso
    have h1 := h.1
    rw [Real.sqrt_lt' (by norm_num)] at h1
    norm_num at h1
  · norm_num

/-- The rope update of the example frame, against the advanced P1 and P2. -/
theorem frameExample_rope :
    updateRope Real.sqrt 50 5 (vec 0 0) (vec (1445 / 144) 20) (vec 30 (-2875 / 144)) (vec 40 0)
      [(⟨vec 0 0, vec 0 0, 1⟩ : RopeNode ℝ), ⟨vec 20 5, vec 0 0, 999999 / 1000000⟩,
        ⟨vec 40 0, vec 0 0, 1⟩] (1 / 120) =
      some [⟨vec 0 0, vec 0 0, 1⟩,
        ⟨vec (4423685 / 221184) (1102085 / 221184), vec (25 / 9216) (-19175 / 9216),
          999999 / 1000000⟩,
        ⟨vec 40 0, vec 0 0, 1⟩] := by
  rw [updateRope_three, ropeBody_middle]
  simp only [bezierPoint, add, mul, sub, vec, len]
  split_ifs with h
  · exfalso
    rw [Real.sqrt_lt' (by norm_num)] at h
    norm_num at h
  · norm_num

/-- A frame of length `1/120` is one substep. -/
theorem stepCount_fixedDt : stepCount (1 / 120 : ℝ) = 1 := by
  have h : (1 / 120 : ℝ) / fixedDt = ((1 : Int) : ℝ) := by
    simp only [fixedDt]; norm_num
  simp only [stepCount, h, Int.ceil_intCast]
  decide

/-- Witness for C8: an unpaused world with P1 and P2 away from their targets
and a three-node rope whose middle node is off the curve.  A frame of `0.2`
runs five substeps of size `0.2 / 5` and leaves the state of five substeps of
the specification; a frame of `1/120` runs one substep, after which P1, P2 and
the middle rope node have moved to the values shown. -/
theorem renderPhysics_substeps_witness :
    (
      (⟨vec 0 0, vec 40 0, ⟨vec 10 20, vec 0 0, vec 20 20⟩, ⟨vec 30 (-20), vec 0 0, vec 30 (-10)⟩,
        [⟨vec 0 0, vec 0 0, 1⟩, ⟨vec 20 5, vec 0 0, 999999 / 1000000⟩, ⟨vec 40 0, vec 0 0, 1⟩],
        50, 5, 1, false⟩ : World ℝ)).paused = false ∧
    (
      (⟨vec 0 0, vec 40 0, ⟨vec 10 20, vec 0 0, vec 20 20⟩, ⟨vec 30 (-20), vec 0 0, vec 30 (-10)⟩,
        [⟨vec 0 0, vec 0 0, 1⟩, ⟨vec 20 5, vec 0 0, 999999 / 1000000⟩, ⟨vec 40 0, vec 0 0, 1⟩],
        50, 5, 1, false⟩ : World ℝ)).ropePoints ≠ [] ∧
    (∃ w1, renderPhysics Real.sqrt 
      (⟨vec 0 0, vec 40 0, ⟨vec 10 20, vec 0 0, vec 20 20⟩, ⟨vec 30 (-20), vec 0 0, vec 30 (-10)⟩,
        [⟨vec 0 0, vec 0 0, 1⟩, ⟨vec 20 5, vec 0 0, 999999 / 1000000⟩, ⟨vec 40 0, vec 0 0, 1⟩],
        50, 5, 1, false⟩ : World ℝ) 0.2 =
        some (w1, (List.replicate 5 [Call.updateP1 (0.2 / ((5 : Int) : ℝ)),
          Call.updateP2 (0.2 / ((5 : Int) : ℝ)),
          Call.updateRope (0.2 / ((5 : Int) : ℝ))]).flatten) ∧
      substepsSpec Real.sqrt (0.2 / ((5 : Int) : ℝ)) 5 
      (⟨vec 0 0, vec 40 0, ⟨vec 10 20, vec 0 0, vec 20 20⟩, ⟨vec 30 (-20), vec 0 0, vec 30 (-10)⟩,
        [⟨vec 0 0, vec 0 0, 1⟩, ⟨vec 20 5, vec 0 0, 999999 / 1000000⟩, ⟨vec 40 0, vec 0 0, 1⟩],
        50, 5, 1, false⟩ : World ℝ) = some w1) ∧
    renderPhysics Real.sqrt 
      (⟨vec 0 0, vec 40 0, ⟨vec 10 20, vec 0 0, vec 20 20⟩, ⟨vec 30 (-20), vec 0 0, vec 30 (-10)⟩,
        [⟨vec 0 0, vec 0 0, 1⟩, ⟨vec 20 5, vec 0 0, 999999 / 1000000⟩, ⟨vec 40 0, vec 0 0, 1⟩],
        50, 5, 1, false⟩ : World ℝ) (1 / 120) =
      some (
      (⟨vec 0 0, vec 40 0, ⟨vec (1445 / 144) 20, vec (25 / 6) 0, vec 20 20⟩,
        ⟨vec 30 (-2875 / 144), vec 0 (25 / 6), vec 30 (-10)⟩,
        [⟨vec 0 0, vec 0 0, 1⟩,
          ⟨vec (4423685 / 221184) (1102085 / 221184), vec (25 / 9216) (-19175 / 9216),
            999999 / 1000000⟩,
          ⟨vec 40 0, vec 0 0, 1⟩],
        50, 5, 1, false⟩ : World ℝ),
        [Call.updateP1 (1 / 120), Call.updateP2 (1 / 120), Call.updateRope (1 / 120)]) := by
  refine ⟨rfl, List.cons_ne_nil _ _, ?_, ?_⟩
  · obtain ⟨_, _, _, _, ⟨w1, hw, hspec, _⟩, h5, _⟩ := renderPhysics_substeps Real.sqrt
      
      (⟨vec 0 0, vec 40 0, ⟨vec 10 20, vec 0 0, vec 20 20⟩, ⟨vec 30 (-20), vec 0 0, vec 30 (-10)⟩,
        [⟨vec 0 0, vec 0 0, 1⟩, ⟨vec 20 5, vec 0 0, 999999 / 1000000⟩, ⟨vec 40 0, vec 0 0, 1⟩],
        50, 5, 1, false⟩ : World ℝ) 0.2 rfl (List.cons_ne_nil _ _)
    rw [h5] at hw hspec
    exact ⟨w1, hw, hspec⟩
  · obtain ⟨_, _, _, _, ⟨w1, hw, hspec, _⟩, _⟩ := renderPhysics_substeps Real.sqrt
      
      (⟨vec 0 0, vec 40 0, ⟨vec 10 20, vec 0 0, vec 20 20⟩, ⟨vec 30 (-20), vec 0 0, vec 30 (-10)⟩,
        [⟨vec 0 0, vec 0 0, 1⟩, ⟨vec 20 5, vec 0 0, 999999 / 1000000⟩, ⟨vec 40 0, vec 0 0, 1⟩],
        50, 5, 1, false⟩ : World ℝ) (1 / 120) rfl (List.cons_ne_nil _ _)
    rw [stepCount_fixedDt] at hw hspec
    have hnat : (1 : Int).toNat = 1 := rfl
    rw [hnat] at hw hspec
    have hstep : (1 / 120 : ℝ) / ((1 : Int) : ℝ) = 1 / 120 := by norm_num
    rw [hstep] at hw hspec
    have hone : substepsSpec Real.sqrt (1 / 120) 1 
      (⟨vec 0 0, vec 40 0, ⟨vec 10 20, vec 0 0, vec 20 20⟩, ⟨vec 30 (-20), vec 0 0, vec 30 (-10)⟩,
        [⟨vec 0 0, vec 0 0, 1⟩, ⟨vec 20 5, vec 0 0, 999999 / 1000000⟩, ⟨vec 40 0, vec 0 0, 1⟩],
        50, 5, 1, false⟩ : World ℝ) = some 
      (⟨vec 0 0, vec 40 0, ⟨vec (1445 / 144) 20, vec (25 / 6) 0, vec 20 20⟩,
        ⟨vec 30 (-2875 / 144), vec 0 (25 / 6), vec 30 (-10)⟩,
        [⟨vec 0 0, vec 0 0, 1⟩,
          ⟨vec (4423685 / 221184) (1102085 / 221184), vec (25 / 9216) (-19175 / 9216),
            999999 / 1000000⟩,
          ⟨vec 40 0, vec 0 0, 1⟩],
        50, 5, 1, false⟩ : World ℝ) := by
      simp only [substepsSpec, substepSpec, frameExample_P1, frameExample_P2,
        frameExample_rope, Option.map_some', Option.some_bind]
    rw [hone] at hspec
    rw [hw, ← Option.some.inj hspec]
    rfl

end Frame

/-! ## Theorems: tangent drawing loop -/

/-- The sampling loop produces `samples` points. -/
theorem samplePts_length [LinearOrderedField K] (P0 P1 P2 P3 : Vec K) (samples : Nat) :
    (samplePts P0 P1 P2 P3 samples).length = samples := by
  simp [samplePts]

/-- With a zero stride the tangent loop entered at a valid index never ends. -/
theorem tangentLoop_zero_stride (samples ptsLength : Nat) (h0 : samples / 16 = 0) :
    ∀ (fuel i : Nat) (visited : List Nat), i < ptsLength →
      tangentLoop samples ptsLength fuel i visited = none := by
  intro fuel
  induction fuel with
  | zero => intro i visited _; rfl
  | succ fuel ih =>
    intro i visited hi
    rw [tangentLoop, if_pos hi, h0]
    exact ih i _ hi

/-- With a positive stride the tangent loop ends, having visited only valid
indices. -/
theorem tangentLoop_pos_stride (samples ptsLength : Nat) (h0 : 0 < samples / 16) :
    ∀ (fuel i : Nat) (visited : List Nat), ptsLength - i < fuel →
      (∀ j ∈ visited, j < ptsLength) →
      ∃ out, tangentLoop samples ptsLength fuel i visited = some out ∧
        ∀ j ∈ out, j < ptsLength := by
  intro fuel
  induction fuel with
  | zero =>
    intro i visited hf hv
    exact absurd hf (by omega)
  | succ fuel ih =>
    intro i visited hf hv
    rw [tangentLoop]
    split_ifs with hi
    · refine ih _ _ (by omega) ?_
      intro j hj
      rcases List.mem_append.mp hj with h | h
      · exact hv j h
      · simpa [List.mem_singleton.mp h] using hi
    · exact ⟨visited, rfl, hv⟩

/-- C10 on the code: for a sample count `N` with `2 ≤ N < 16` the stride
`floor(N/16)` is `0` and the tangent loop of `render` never ends, whatever the
bound on its iterations; from `N ≥ 16` on it ends and visits only valid
indices. -/
theorem tangentLoop_small_sample_count (N : Nat) (h2 : 2 ≤ N) (h16 : N < 16) :
    (∀ (P0 P1 P2 P3 : Vec ℚ) (fuel : Nat),
      tangentLoop N (samplePts P0 P1 P2 P3 N).length fuel 0 [] = none) ∧
    (∀ (M : Nat) (P0 P1 P2 P3 : Vec ℚ), 16 ≤ M →
      ∃ fuel out, tangentLoop M (samplePts P0 P1 P2 P3 M).length fuel 0 [] = some out ∧
        ∀ j ∈ out, j < M) := by
  constructor
  · intro P0 P1 P2 P3 fuel
    rw [samplePts_length]
    exact tangentLoop_zero_stride N N (by omega) fuel 0 [] (by omega)
  · intro M P0 P1 P2 P3 hM
    rw [samplePts_length]
    obtain ⟨out, h, hv⟩ := tangentLoop_pos_stride M M (by omega) (M + 1) 0 [] (by omega)
      (by simp)
    exact ⟨M + 1, out, h, hv⟩

/-- Failing input for C10: `samples = 8`. -/
theorem tangentLoop_small_sample_count_witness :
    2 ≤ 8 ∧ 8 < 16 ∧ ∀ (P0 P1 P2 P3 : Vec ℚ) (fuel : Nat),
      tangentLoop 8 (samplePts P0 P1 P2 P3 8).length fuel 0 [] = none :=
  ⟨by decide, by decide, (tangentLoop_small_sample_count 8 (by decide) (by decide)).1⟩

/-! ## Theorems: convergence of the spring-damper step -/

section Lyapunov

/-- One linear step lowers `lyapV` by `lyapD * (e² + w²)`. -/
theorem lyapV_step (β γ e w : ℝ) :
    lyapV β γ (e + ((1 - β) * w - γ * e)) ((1 - β) * w - γ * e) =
      lyapV β γ e w - lyapD β γ * (e * e + w * w) := by
  simp only [lyapV, lyapA, lyapB, lyapC, lyapD]
  ring

/-- In the stability region the rate `lyapD` is positive. -/
theorem lyapD_pos (β γ : ℝ) (hβ : 0 < β) (hγ : 0 < γ) (hs : γ + 2 * β < 4) :
    0 < lyapD β γ := by
  simp only [lyapD]
  have h1 : 0 < 4 - 2 * β - γ := by linarith
  positivity

/-- In the stability region the coefficient `lyapC` is positive. -/
theorem lyapC_pos (β γ : ℝ) (hβ : 0 < β) (hγ : 0 < γ) (hs : γ + 2 * β < 4) :
    0 < lyapC β γ := by
  simp only [lyapC]
  have h1 : 0 < 4 - 2 * β - γ := by linarith
  have h2 : 0 < 2 - β + 2 * γ := by linarith
  have h3 : 0 ≤ 2 * (1 - β) * (1 - β) * (2 - β + 2 * γ) := by
    have := mul_self_nonneg (1 - β)
    nlinarith [mul_nonneg this h2.le]
  have h4 : 0 < 2 * γ * β * (4 - 2 * β - γ) := by positivity
  linarith

/-- In the stability region `lyapV` is non-negative. -/
theorem lyapV_nonneg (β γ e w : ℝ) (hβ : 0 < β) (hγ : 0 < γ) (hs : γ + 2 * β < 4) :
    0 ≤ lyapV β γ e w := by
  have hC := lyapC_pos β γ hβ hγ hs
  have h1 : 0 < 4 - 2 * β - γ := by linarith
  have hdet : lyapA β γ * lyapC β γ - lyapB β γ * lyapB β γ =
      4 * γ * (4 - 2 * β - γ) * ((1 + γ - β) * (1 + γ - β) + β * β) := by
    simp only [lyapA, lyapB, lyapC]
    ring
  have hdet0 : 0 ≤ lyapA β γ * lyapC β γ - lyapB β γ * lyapB β γ := by
    rw [hdet]
    have : 0 ≤ (1 + γ - β) * (1 + γ - β) + β * β :=
      add_nonneg (mul_self_nonneg _) (mul_self_nonneg _)
    positivity
  have hsq : lyapC β γ * lyapV β γ e w =
      (lyapC β γ * w + lyapB β γ * e) * (lyapC β γ * w + lyapB β γ * e) +
      (lyapA β γ * lyapC β γ - lyapB β γ * lyapB β γ) * (e * e) := by
    simp only [lyapV]
    ring
  have hCV : 0 ≤ lyapC β γ * lyapV β γ e w := by
    rw [hsq]
    exact add_nonneg (mul_self_nonneg _) (mul_nonneg hdet0 (mul_self_nonneg _))
  exact nonneg_of_mul_nonneg_right hCV hC

/-- In the stability region `lyapV` dominates `lyapD * (e² + w²)`. -/
theorem lyapV_lower (β γ e w : ℝ) (hβ : 0 < β) (hγ : 0 < γ) (hs : γ + 2 * β < 4) :
    lyapD β γ * (e * e + w * w) ≤ lyapV β γ e w := by
  have h := lyapV_step β γ e w
  have h0 := lyapV_nonneg β γ (e + ((1 - β) * w - γ * e)) ((1 - β) * w - γ * e) hβ hγ hs
  linarith

/-- The form `lyapV` is bounded by `(|A| + |B| + |C|) * (e² + w²)`. -/
theorem lyapV_upper (β γ e w : ℝ) :
    lyapV β γ e w ≤ (|lyapA β γ| + |lyapB β γ| + |lyapC β γ|) * (e * e + w * w) := by
  have he : 0 ≤ e * e := mul_self_nonneg e
  have hw : 0 ≤ w * w := mul_self_nonneg w
  have hA : lyapA β γ * (e * e) ≤ |lyapA β γ| * (e * e) :=
    mul_le_mul_of_nonneg_right (le_abs_self _) he
  have hC : lyapC β γ * (w * w) ≤ |lyapC β γ| * (w * w) :=
    mul_le_mul_of_nonneg_right (le_abs_self _) hw
  have hB : 2 * lyapB β γ * (e * w) ≤ |lyapB β γ| * (e * e + w * w) := by
    have h1 : 2 * lyapB β γ * (e * w) ≤ |2 * lyapB β γ * (e * w)| := le_abs_self _
    have h2 : |2 * lyapB β γ * (e * w)| = |lyapB β γ| * (2 * (|e| * |w|)) := by
      rw [abs_mul, abs_mul, abs_mul, abs_two]; ring
    have h3 : 2 * (|e| * |w|) ≤ e * e + w * w := by
      have := mul_self_nonneg (|e| - |w|)
      have hee : |e| * |e| = e * e := abs_mul_abs_self e
      have hww : |w| * |w| = w * w := abs_mul_abs_self w
      nlinarith
    calc 2 * lyapB β γ * (e * w) ≤ |lyapB β γ| * (2 * (|e| * |w|)) := by rw [← h2]; exact h1
      _ ≤ |lyapB β γ| * (e * e + w * w) := mul_le_mul_of_nonneg_left h3 (abs_nonneg _)
  have hA' : 0 ≤ |lyapA β γ| * (w * w) := mul_nonneg (abs_nonneg _) hw
  have hC' : 0 ≤ |lyapC β γ| * (e * e) := mul_nonneg (abs_nonneg _) he
  simp only [lyapV]
  nlinarith

end Lyapunov

section Convergence

/-- The state `pos = target`, `vel = (0,0)` that the resting clamp produces. -/
theorem updateDynamicPoint_eq_clamp (k d m dt : ℝ) (dp : DynamicPoint ℝ) :
    updateDynamicPoint Real.sqrt k d m dp dt =
      if len Real.sqrt (sub (eulerStep k d m dp dt).pos dp.target) < 0.6 ∧
          len Real.sqrt (eulerStep k d m dp dt).vel < 0.08 then
        { pos := dp.target, vel := vec 0 0, target := dp.target }
      else eulerStep k d m dp dt := by
  obtain ⟨pos, vel, ⟨tx, ty⟩⟩ := dp
  rfl

/-- The step before the clamp lowers `energy` by `lyapD * sqSize`. -/
theorem energy_eulerStep (k d m dt : ℝ) (dp : DynamicPoint ℝ) (hm : 0 < m) :
    energy k d m dt (eulerStep k d m dp dt) =
      energy k d m dt dp - lyapD (d * dt / m) (k * dt * dt / m) * sqSize dt dp := by
  obtain ⟨⟨px, py⟩, ⟨vx, vy⟩, ⟨tx, ty⟩⟩ := dp
  have hm0 : m ≠ 0 := hm.ne'
  have hw : ∀ p v t : ℝ, dt * (v + ((t - p) * (k / m) + v * (-d / m)) * dt) =
      (1 - d * dt / m) * (dt * v) - k * dt * dt / m * (p - t) := by
    intro p v t; field_simp; ring
  have he : ∀ p v t : ℝ, p + (v + ((t - p) * (k / m) + v * (-d / m)) * dt) * dt - t =
      (p - t) + ((1 - d * dt / m) * (dt * v) - k * dt * dt / m * (p - t)) := by
    intro p v t; field_simp; ring
  simp only [energy, eulerStep, sqSize, add, mul, sub, vec, hw, he, lyapV_step]
  ring

/-- In the stability region `energy` is non-negative. -/
theorem energy_nonneg (k d m dt : ℝ) (dp : DynamicPoint ℝ)
    (hβ : 0 < d * dt / m) (hγ : 0 < k * dt * dt / m)
    (hs : k * dt * dt / m + 2 * (d * dt / m) < 4) : 0 ≤ energy k d m dt dp :=
  add_nonneg (lyapV_nonneg _ _ _ _ hβ hγ hs) (lyapV_nonneg _ _ _ _ hβ hγ hs)

/-- In the stability region `energy` dominates `lyapD * sqSize`. -/
theorem energy_lower (k d m dt : ℝ) (dp : DynamicPoint ℝ)
    (hβ : 0 < d * dt / m) (hγ : 0 < k * dt * dt / m)
    (hs : k * dt * dt / m + 2 * (d * dt / m) < 4) :
    lyapD (d * dt / m) (k * dt * dt / m) * sqSize dt dp ≤ energy k d m dt dp := by
  have h1 := lyapV_lower _ _ (dp.pos.x - dp.target.x) (dt * dp.vel.x) hβ hγ hs
  have h2 := lyapV_lower _ _ (dp.pos.y - dp.target.y) (dt * dp.vel.y) hβ hγ hs
  simp only [energy, sqSize]
  linarith

/-- The `energy` is bounded by `(|A| + |B| + |C|) * sqSize`. -/
theorem energy_upper (k d m dt : ℝ) (dp : DynamicPoint ℝ) :
    energy k d m dt dp ≤
      (|lyapA (d * dt / m) (k * dt * dt / m)| + |lyapB (d * dt / m) (k * dt * dt / m)| +
        |lyapC (d * dt / m) (k * dt * dt / m)|) * sqSize dt dp := by
  have h1 := lyapV_upper (d * dt / m) (k * dt * dt / m) (dp.pos.x - dp.target.x) (dt * dp.vel.x)
  have h2 := lyapV_upper (d * dt / m) (k * dt * dt / m) (dp.pos.y - dp.target.y) (dt * dp.vel.y)
  simp only [energy, sqSize]
  linarith

/-- In the stability region the step before the clamp contracts `energy` by a
factor `c` with `0 ≤ c < 1` that depends only on `k`, `d`, `m`, `dt`. -/
theorem energy_contraction (k d m dt : ℝ) (hm : 0 < m)
    (hβ : 0 < d * dt / m) (hγ : 0 < k * dt * dt / m)
    (hs : k * dt * dt / m + 2 * (d * dt / m) < 4) :
    ∃ c : ℝ, 0 ≤ c ∧ c < 1 ∧
      ∀ dp : DynamicPoint ℝ, energy k d m dt (eulerStep k d m dp dt) ≤ c * energy k d m dt dp := by
  obtain ⟨U, hU⟩ : ∃ U, U = |lyapA (d * dt / m) (k * dt * dt / m)| +
      |lyapB (d * dt / m) (k * dt * dt / m)| + |lyapC (d * dt / m) (k * dt * dt / m)| := ⟨_, rfl⟩
  obtain ⟨D, hD⟩ : ∃ D, D = lyapD (d * dt / m) (k * dt * dt / m) := ⟨_, rfl⟩
  have hDpos : 0 < D := by rw [hD]; exact lyapD_pos _ _ hβ hγ hs
  have hUpos : 0 < U := by
    have hC := lyapC_pos _ _ hβ hγ hs
    have := abs_nonneg (lyapA (d * dt / m) (k * dt * dt / m))
    have := abs_nonneg (lyapB (d * dt / m) (k * dt * dt / m))
    have := le_abs_self (lyapC (d * dt / m) (k * dt * dt / m))
    rw [hU]; linarith
  have hDU : D ≤ U := by
    have h1 := energy_lower k d m dt ⟨⟨1, 0⟩, ⟨0, 0⟩, ⟨0, 0⟩⟩ hβ hγ hs
    have h2 := energy_upper k d m dt ⟨⟨1, 0⟩, ⟨0, 0⟩, ⟨0, 0⟩⟩
    rw [← hD] at h1
    rw [← hU] at h2
    have h3 : sqSize dt (⟨⟨1, 0⟩, ⟨0, 0⟩, ⟨0, 0⟩⟩ : DynamicPoint ℝ) = 1 := by
      simp [sqSize]
    rw [h3] at h1 h2
    linarith
  refine ⟨1 - D / U, ?_, ?_, ?_⟩
  · have : D / U ≤ 1 := (div_le_one hUpos).mpr hDU
    linarith
  · have : 0 < D / U := div_pos hDpos hUpos
    linarith
  · intro dp
    have hstep := energy_eulerStep k d m dt dp hm
    have hup := energy_upper k d m dt dp
    rw [← hU] at hup
    rw [← hD] at hstep
    have hsz : energy k d m dt dp / U ≤ sqSize dt dp := by
      rw [div_le_iff₀ hUpos]; linarith
    have : D * (energy k d m dt dp / U) ≤ D * sqSize dt dp :=
      mul_le_mul_of_nonneg_left hsz hDpos.le
    have e : (1 - D / U) * energy k d m dt dp =
        energy k d m dt dp - D * (energy k d m dt dp / U) := by ring
    rw [e, hstep]
    linarith

/-- A state of small `energy` satisfies the two tests of the resting clamp. -/
theorem clamp_of_energy_lt (k d m dt : ℝ) (dp : DynamicPoint ℝ) (hdt : 0 < dt)
    (hβ : 0 < d * dt / m) (hγ : 0 < k * dt * dt / m)
    (hs : k * dt * dt / m + 2 * (d * dt / m) < 4)
    (h1 : energy k d m dt dp < lyapD (d * dt / m) (k * dt * dt / m) * (9 / 25))
    (h2 : energy k d m dt dp < lyapD (d * dt / m) (k * dt * dt / m) * (4 / 625 * (dt * dt))) :
    len Real.sqrt (sub dp.pos dp.target) < 0.6 ∧ len Real.sqrt dp.vel < 0.08 := by
  have hD := lyapD_pos _ _ hβ hγ hs
  have hlow := energy_lower k d m dt dp hβ hγ hs
  have hsz1 : sqSize dt dp < 9 / 25 := lt_of_mul_lt_mul_left (hlow.trans_lt h1) hD.le
  have hsz2 : sqSize dt dp < 4 / 625 * (dt * dt) :=
    lt_of_mul_lt_mul_left (hlow.trans_lt h2) hD.le
  have hx := mul_self_nonneg (dp.pos.x - dp.target.x)
  have hy := mul_self_nonneg (dp.pos.y - dp.target.y)
  have hvx := mul_self_nonneg (dt * dp.vel.x)
  have hvy := mul_self_nonneg (dt * dp.vel.y)
  simp only [sqSize] at hsz1 hsz2
  constructor
  · simp only [len, sub, vec]
    rw [Real.sqrt_lt' (by norm_num)]
    norm_num
    linarith
  · simp only [len]
    rw [Real.sqrt_lt' (by norm_num)]
    have hdd : 0 < dt * dt := mul_pos hdt hdt
    have : dt * dt * (dp.vel.x * dp.vel.x + dp.vel.y * dp.vel.y) < dt * dt * (4 / 625) := by
      nlinarith
    have := lt_of_mul_lt_mul_left this hdd.le
    norm_num
    linarith

end Convergence

section Settling

/-- One call keeps `target`. -/
theorem updateDynamicPoint_target (k d m dt : ℝ) (dp : DynamicPoint ℝ) :
    (updateDynamicPoint Real.sqrt k d m dp dt).target = dp.target := by
  rw [updateDynamicPoint_eq_clamp]
  split_ifs <;> rfl

/-- Any number of calls keeps `target`. -/
theorem iterate_updateDynamicPoint_target (k d m dt : ℝ) (n : ℕ) :
    ∀ dp : DynamicPoint ℝ,
      ((fun s => updateDynamicPoint Real.sqrt k d m s dt)^[n] dp).target = dp.target := by
  induction n with
  | zero => intro dp; rfl
  | succ n ih =>
    intro dp
    rw [Function.iterate_succ_apply, ih, updateDynamicPoint_target]

/-- In the stability region some step passes the two tests of the resting
clamp. -/
theorem exists_clamp_step (k d m dt : ℝ) (hk : 0 < k) (hd : 0 < d) (hm : 0 < m) (hdt : 0 < dt)
    (hstab : k * dt * dt + 2 * d * dt < 4 * m) (dp : DynamicPoint ℝ) :
    ∃ j : ℕ,
      len Real.sqrt (sub (eulerStep k d m
        ((fun s => updateDynamicPoint Real.sqrt k d m s dt)^[j] dp) dt).pos
        ((fun s => updateDynamicPoint Real.sqrt k d m s dt)^[j] dp).target) < 0.6 ∧
      len Real.sqrt (eulerStep k d m
        ((fun s => updateDynamicPoint Real.sqrt k d m s dt)^[j] dp) dt).vel < 0.08 := by
  have hβ : 0 < d * dt / m := by positivity
  have hγ : 0 < k * dt * dt / m := by positivity
  have hs : k * dt * dt / m + 2 * (d * dt / m) < 4 := by
    have e : k * dt * dt / m + 2 * (d * dt / m) = (k * dt * dt + 2 * d * dt) / m := by
      field_simp
      ring
    rw [e, div_lt_iff₀ hm]
    exact hstab
  obtain ⟨c, hc0, hc1, hc⟩ := energy_contraction k d m dt hm hβ hγ hs
  have hD := lyapD_pos _ _ hβ hγ hs
  obtain ⟨ε, hε, hε1, hε2⟩ : ∃ ε : ℝ, 0 < ε ∧
      ε ≤ lyapD (d * dt / m) (k * dt * dt / m) * (9 / 25) ∧
      ε ≤ lyapD (d * dt / m) (k * dt * dt / m) * (4 / 625 * (dt * dt)) :=
    ⟨min (lyapD (d * dt / m) (k * dt * dt / m) * (9 / 25))
        (lyapD (d * dt / m) (k * dt * dt / m) * (4 / 625 * (dt * dt))),
      lt_min (by positivity) (by positivity), min_le_left _ _, min_le_right _ _⟩
  have hsmall : ∀ s : DynamicPoint ℝ, energy k d m dt s < ε →
      len Real.sqrt (sub (eulerStep k d m s dt).pos s.target) < 0.6 ∧
      len Real.sqrt (eulerStep k d m s dt).vel < 0.08 := by
    intro s hsε
    have h0 := energy_nonneg k d m dt s hβ hγ hs
    have hle : energy k d m dt (eulerStep k d m s dt) ≤ energy k d m dt s :=
      (hc s).trans (by nlinarith)
    exact clamp_of_energy_lt k d m dt (eulerStep k d m s dt) hdt hβ hγ hs
      (by linarith) (by linarith)
  have key : ∀ (N : ℕ) (s : DynamicPoint ℝ), c ^ N * energy k d m dt s < ε →
      ∃ j : ℕ,
        len Real.sqrt (sub (eulerStep k d m
          ((fun s => updateDynamicPoint Real.sqrt k d m s dt)^[j] s) dt).pos
          ((fun s => updateDynamicPoint Real.sqrt k d m s dt)^[j] s).target) < 0.6 ∧
        len Real.sqrt (eulerStep k d m
          ((fun s => updateDynamicPoint Real.sqrt k d m s dt)^[j] s) dt).vel < 0.08 := by
    intro N
    induction N with
    | zero =>
      intro s hsε
      exact ⟨0, hsmall s (by simpa using hsε)⟩
    | succ N ih =>
      intro s hsε
      by_cases hcl : len Real.sqrt (sub (eulerStep k d m s dt).pos s.target) < 0.6 ∧
          len Real.sqrt (eulerStep k d m s dt).vel < 0.08
      · exact ⟨0, hcl⟩
      · have hstep : updateDynamicPoint Real.sqrt k d m s dt = eulerStep k d m s dt := by
          rw [updateDynamicPoint_eq_clamp, if_neg hcl]
        have hle : c ^ N * energy k d m dt (eulerStep k d m s dt) ≤
            c ^ (N + 1) * energy k d m dt s := by
          rw [pow_succ, mul_assoc]
          exact mul_le_mul_of_nonneg_left (hc s) (pow_nonneg hc0 N)
        obtain ⟨j, hj⟩ := ih (eulerStep k d m s dt) (hle.trans_lt hsε)
        refine ⟨j + 1, ?_⟩
        rw [Function.iterate_succ_apply, hstep]
        exact hj
  obtain ⟨N, hN⟩ : ∃ N : ℕ, c ^ N * energy k d m dt dp < ε := by
    have h0 := energy_nonneg k d m dt dp hβ hγ hs
    obtain ⟨N, hN⟩ := exists_pow_lt_of_lt_one
      (div_pos hε (by linarith : 0 < energy k d m dt dp + 1)) hc1
    refine ⟨N, ?_⟩
    have h1 : c ^ N * (energy k d m dt dp + 1) < ε := by
      rwa [lt_div_iff₀ (by linarith)] at hN
    have h2 : 0 ≤ c ^ N := pow_nonneg hc0 N
    nlinarith
  exact key N dp hN

/-- C5 as amended. Convergence in the stability region: for every constant
target, every starting position with `vel = (0,0)`, every `k > 0`, `d > 0`,
`m > 0` and every step size `dt > 0` with `k*dt² + 2*d*dt < 4*m`, some step `N`
of the repeated `updateDynamicPoint` passes the tests `|pos - target| < 0.6` and
`|vel| < 0.08` of the resting clamp, and after every later step `pos = target`
and `vel = (0,0)`. -/
theorem updateDynamicPoint_converges (k d m dt : ℝ) (dp : DynamicPoint ℝ)
    (hvel : dp.vel = vec 0 0) (hk : 0 < k) (hd : 0 < d) (hm : 0 < m) (hdt : 0 < dt)
    (hstab : k * dt * dt + 2 * d * dt < 4 * m) :
    ∃ N : ℕ,
      (len Real.sqrt (sub (eulerStep k d m
          ((fun s => updateDynamicPoint Real.sqrt k d m s dt)^[N] dp) dt).pos dp.target) < 0.6 ∧
        len Real.sqrt (eulerStep k d m
          ((fun s => updateDynamicPoint Real.sqrt k d m s dt)^[N] dp) dt).vel < 0.08) ∧
      ∀ n : ℕ, N < n →
        ((fun s => updateDynamicPoint Real.sqrt k d m s dt)^[n] dp).pos = dp.target ∧
        ((fun s => updateDynamicPoint Real.sqrt k d m s dt)^[n] dp).vel = vec 0 0 := by
  have _ := hvel
  obtain ⟨N, hN⟩ := exists_clamp_step k d m dt hk hd hm hdt hstab dp
  have htar := iterate_updateDynamicPoint_target k d m dt N dp
  rw [htar] at hN
  refine ⟨N, hN, ?_⟩
  have hnext : (fun s => updateDynamicPoint Real.sqrt k d m s dt)^[N + 1] dp =
      { pos := dp.target, vel := vec 0 0, target := dp.target } := by
    rw [Function.iterate_succ_apply', updateDynamicPoint_eq_clamp, htar, if_pos hN]
  intro n hn
  obtain ⟨i, rfl⟩ : ∃ i, n = i + (N + 1) := ⟨n - (N + 1), by omega⟩
  rw [Function.iterate_add_apply, hnext,
    Function.iterate_fixed (updateDynamicPoint_rest Real.sqrt k d m dt _ rfl rfl)]
  exact ⟨rfl, rfl⟩

/-- Witness for the amended C5: from `pos = (0,0)` at rest to `target = (10,0)`
with `k = 50`, `d = 5`, `m = 1`, `dt = 1/120`. -/
theorem updateDynamicPoint_converges_witness :
    ∃ N : ℕ, ∀ n : ℕ, N < n →
      ((fun s => updateDynamicPoint Real.sqrt 50 5 1 s (1 / 120))^[n]
        (⟨vec 0 0, vec 0 0, vec 10 0⟩ : DynamicPoint ℝ)).pos = vec 10 0 := by
  obtain ⟨N, _, h⟩ := updateDynamicPoint_converges 50 5 1 (1 / 120)
    (⟨vec 0 0, vec 0 0, vec 10 0⟩ : DynamicPoint ℝ) rfl (by norm_num) (by norm_num)
    (by norm_num) (by norm_num) (by norm_num)
  exact ⟨N, fun n hn => (h n hn).1⟩

/-- With `k = 50`, `d = 5`, `m = 1`, `dt = 1` the distance to the target
`(10,0)` never drops below `10` along the run from `(0,0)` at rest. -/
theorem diverging_run_invariant (n : ℕ) :
    ((fun s => updateDynamicPoint Real.sqrt 50 5 1 s 1)^[n]
      (⟨vec 0 0, vec 0 0, vec 10 0⟩ : DynamicPoint ℝ)).target = vec 10 0 ∧
    ((10 ≤ ((fun s => updateDynamicPoint Real.sqrt 50 5 1 s 1)^[n]
        (⟨vec 0 0, vec 0 0, vec 10 0⟩ : DynamicPoint ℝ)).pos.x - 10 ∧
      0 ≤ ((fun s => updateDynamicPoint Real.sqrt 50 5 1 s 1)^[n]
        (⟨vec 0 0, vec 0 0, vec 10 0⟩ : DynamicPoint ℝ)).vel.x) ∨
     (((fun s => updateDynamicPoint Real.sqrt 50 5 1 s 1)^[n]
        (⟨vec 0 0, vec 0 0, vec 10 0⟩ : DynamicPoint ℝ)).pos.x - 10 ≤ -10 ∧
      ((fun s => updateDynamicPoint Real.sqrt 50 5 1 s 1)^[n]
        (⟨vec 0 0, vec 0 0, vec 10 0⟩ : DynamicPoint ℝ)).vel.x ≤ 0)) := by
  induction n with
  | zero => exact ⟨rfl, Or.inr ⟨by simp [vec], by simp [vec]⟩⟩
  | succ n ih =>
    rw [Function.iterate_succ_apply']
    obtain ⟨s, hs⟩ : ∃ s, s = (fun s => updateDynamicPoint Real.sqrt 50 5 1 s 1)^[n]
      (⟨vec 0 0, vec 0 0, vec 10 0⟩ : DynamicPoint ℝ) := ⟨_, rfl⟩
    rw [← hs] at ih ⊢
    obtain ⟨htar, hinv⟩ := ih
    obtain ⟨⟨px, py⟩, ⟨vx, vy⟩, ⟨tx, ty⟩⟩ := s
    simp only [vec, Vec.mk.injEq] at htar hinv
    obtain ⟨rfl, rfl⟩ := htar
    have hfar : 100 ≤ (px + (vx + ((10 - px) * (50 / 1) + vx * (-5 / 1)) * 1) * 1 - 10) *
        (px + (vx + ((10 - px) * (50 / 1) + vx * (-5 / 1)) * 1) * 1 - 10) := by
      rcases hinv with ⟨h1, h2⟩ | ⟨h1, h2⟩ <;> nlinarith
    have hcl : ¬ (len Real.sqrt (sub (eulerStep 50 5 1
        (⟨⟨px, py⟩, ⟨vx, vy⟩, ⟨10, 0⟩⟩ : DynamicPoint ℝ) 1).pos (⟨10, 0⟩ : Vec ℝ)) < 0.6 ∧
        len Real.sqrt (eulerStep 50 5 1
          (⟨⟨px, py⟩, ⟨vx, vy⟩, ⟨10, 0⟩⟩ : DynamicPoint ℝ) 1).vel < 0.08) := by
      rintro ⟨h, _⟩
      simp only [len, sub, vec, eulerStep, add, mul] at h
      rw [Real.sqrt_lt' (by norm_num)] at h
      have := mul_self_nonneg (py + (vy + ((0 - py) * (50 / 1) + vy * (-5 / 1)) * 1) * 1 - 0)
      norm_num at h
      norm_num at hfar this
      linarith
    rw [updateDynamicPoint_eq_clamp, if_neg hcl]
    refine ⟨rfl, ?_⟩
    simp only [eulerStep, add, mul, sub, vec]
    rcases hinv with ⟨h1, h2⟩ | ⟨h1, h2⟩
    · right; constructor <;> linarith
    · left; constructor <;> linarith

/-- Counterexample to C5 as stated: with `k = 50 > 0`, `d = 5 > 0`, `m = 1 > 0`
and `dt = 1 > 0`, from `pos = (0,0)`, `vel = (0,0)` with `target = (10,0)`, no
number of steps brings `pos` to `target`. -/
theorem updateDynamicPoint_large_dt_never_settles :
    (0 : ℝ) < 50 ∧ (0 : ℝ) < 5 ∧ (0 : ℝ) < 1 ∧ (0 : ℝ) < 1 ∧
    ∀ n : ℕ, ((fun s => updateDynamicPoint Real.sqrt 50 5 1 s 1)^[n]
      (⟨vec 0 0, vec 0 0, vec 10 0⟩ : DynamicPoint ℝ)).pos ≠ vec 10 0 := by
  refine ⟨by norm_num, by norm_num, by norm_num, by norm_num, ?_⟩
  intro n h
  rcases (diverging_run_invariant n).2 with ⟨h1, _⟩ | ⟨h1, _⟩ <;> rw [h] at h1 <;>
    norm_num [vec] at h1

end Settling

end BezierRope
